import Mathlib

/-!
# PyScope package-state engine: a shallow embedding

This file embeds, in Lean, the parts of the PyScope package manager that its
specification makes claims about: the version comparison used by update
checking, the registry fetch retry loop, the bounded insertion-ordered package
cache, the load-generation staleness guard, the search-result processing, the
per-package rate limit, the consecutive-failure circuit breaker, the
install/uninstall failure paths, and the environment-identity hash.

Conventions of the embedding:
* Python strings are Lean `String`s; character-level operations (split, strip,
  lower, slicing) are modelled over `String.data` (`List Char`), with
  `Char.toLower` / `Char.isDigit` standing for their Python counterparts on
  the ASCII inputs that matter here.
* Machine integers of the MD5 hash are `Nat` reduced modulo `2 ^ 32`.
* Wall-clock instants are `Nat` timestamps; `timedelta` comparisons become
  natural-number comparisons.
* Stateful methods become pure functions from the relevant state to the new
  state plus the observable outcome; lock-protected critical sections are
  modelled as single atomic steps.
* Network and subprocess I/O is modelled by oracles: a function or list giving
  the outcome each call would observe.
-/

namespace PyScope

/-! ## Shared data model

`Package` rows as kept in `PackageManagerCore.packages` (src/pyscope/core.py):
dictionaries with keys `name`, `ver` (installed version), `lat` (latest
version) and `stat` (status string). -/

structure Pkg where
  name : String
  ver : String
  lat : String
  stat : String
deriving DecidableEq, Repr

/-- Python `str.lower()` (ASCII model): lower-case every character. -/
def lowerStr (s : String) : String :=
  ⟨s.data.map Char.toLower⟩

/-! ## C2: the version comparison used by update checking

Embedding of the nested `parse_version` in `_check_single_package_simple`
(src/core.py lines 326-348) and of the tuple comparison
`current_ver_parsed < latest_ver_parsed` that decides `Outdated`. -/

/-- Python `str.split('.')` on the character list: splitting an empty string
yields one empty part, and separators at the ends yield empty parts. -/
def splitOnDot : List Char → List (List Char)
  | [] => [[]]
  | c :: cs =>
    if c = '.' then [] :: splitOnDot cs
    else
      match splitOnDot cs with
      | [] => [[c]]
      | p :: ps => (c :: p) :: ps

/-- The run of consecutive decimal digits at the head of the character list. -/
def leadDigits : List Char → List Char
  | [] => []
  | c :: cs => if c.isDigit then c :: leadDigits cs else []

/-- Model of `re.search` with a digit-run pattern: the leftmost maximal run of
decimal digits in the character list, when the list has any digit. -/
def firstDigitRun : List Char → Option (List Char)
  | [] => none
  | c :: cs => if c.isDigit then some (c :: leadDigits cs) else firstDigitRun cs

/-- `int()` of a run of decimal digits. -/
def digitsVal (ds : List Char) : Nat :=
  ds.foldl (fun acc c => acc * 10 + (c.toNat - 48)) 0

/-- One component of `parse_version`: the first run of digits anywhere in the
dot-separated part, or 0 when the part has no digit. -/
def versionPart (part : List Char) : Nat :=
  match firstDigitRun part with
  | some ds => digitsVal ds
  | none => 0

/-- `parse_version` from src/core.py: split on `.` and convert each part. -/
def parse_version (ver : String) : List Nat :=
  (splitOnDot ver.data).map versionPart

/-- Python tuple `<` on integer tuples: lexicographic, a strict prefix of a
longer tuple counts as smaller. -/
def tupleLt : List Nat → List Nat → Bool
  | [], [] => false
  | [], _ :: _ => true
  | _ :: _, [] => false
  | a :: as, b :: bs => if a < b then true else if b < a then false else tupleLt as bs

/-- The outdated test used by the update check in src/core.py: the installed
tuple is strictly below the latest tuple. -/
def is_outdated (installed latest : String) : Bool :=
  tupleLt (parse_version installed) (parse_version latest)

/-- The claim's reference definition of a component value: the run of digits at
the very start of the part, a part not starting with a digit contributing 0. -/
def specLeadVal (part : List Char) : Nat :=
  digitsVal (leadDigits part)

/-- The claim's reference tuple of a version string. -/
def specTuple (ver : String) : List Nat :=
  (splitOnDot ver.data).map specLeadVal

/-- The claim's reference comparison: zero-pad the shorter tuple, then compare
lexicographically. -/
def specRefIsOutdated (installed latest : String) : Bool :=
  let a := specTuple installed
  let b := specTuple latest
  let n := max a.length b.length
  tupleLt (a ++ List.replicate (n - a.length) 0) (b ++ List.replicate (n - b.length) 0)

/-- Component extraction of the amended claim, phrased independently of the
regex model: drop characters until the first digit, then take the digit run. -/
def amendedPart (part : List Char) : Nat :=
  digitsVal ((part.dropWhile (fun c => !c.isDigit)).takeWhile Char.isDigit)

/-- Integer tuple of the amended claim. -/
def amendedTuple (ver : String) : List Nat :=
  (splitOnDot ver.data).map amendedPart

/-- The amended reference comparison: Mathlib's lexicographic order on integer
lists, under which a strict prefix is smaller (no zero padding). -/
def amendedIsOutdated (installed latest : String) : Prop :=
  List.Lex (· < ·) (amendedTuple installed) (amendedTuple latest)

/-! ## C1: load-generation staleness guard

Embedding of `load_packages_with_cache` in src/pyscope/core.py.  The engine
keeps `_load_generation : Nat`; submitting a load increments it under
`_load_gen_lock` and the spawned task captures the incremented value as its
token.  The commit step re-reads the generation while holding the engine lock
and the generation lock, and assigns `self.packages` only when the token still
equals the generation.  Lock-protected critical sections are modelled as
atomic steps, so a commit is a single check-then-assign step. -/

structure EngineState where
  loadGeneration : Nat
  packages : List Pkg
deriving DecidableEq, Repr

/-- Submission half of `load_packages_with_cache`: increment the generation and
capture the new value as the cycle's token. -/
def submitLoad (s : EngineState) : EngineState × Nat :=
  ({ s with loadGeneration := s.loadGeneration + 1 }, s.loadGeneration + 1)

/-- Commit step of a load cycle: the final generation check immediately before
assignment.  When the token is stale the whole result is discarded and the
state is untouched. -/
def commitLoad (s : EngineState) (token : Nat) (newPackages : List Pkg) : EngineState :=
  if s.loadGeneration = token then { s with packages := newPackages } else s

/-- Engine events that can run between a cycle's submission and its commit:
submissions of other load cycles and commits of other cycles. -/
inductive LoadEvent where
  | submit
  | commit (token : Nat) (pkgs : List Pkg)

/-- One engine step. -/
def loadStep (s : EngineState) : LoadEvent → EngineState
  | .submit => (submitLoad s).1
  | .commit t ps => commitLoad s t ps

/-- Run a sequence of engine events. -/
def runLoadEvents (s : EngineState) (es : List LoadEvent) : EngineState :=
  es.foldl loadStep s

/-- How many load submissions (generation increments) a sequence contains. -/
def countSubmits (es : List LoadEvent) : Nat :=
  es.countP fun e => match e with | .submit => true | _ => false

/-! ## C3: bounded insertion-ordered package cache

Embedding of the `OrderedDict`-backed `_packages_cache` with `_trim_cache`,
`_save_packages_to_cache` and `_get_cached_packages` (src/pyscope/core.py).
An `OrderedDict` is modelled as an association list in insertion order. -/

structure CacheEntry (α : Type) where
  payload : α
  timestamp : Nat
deriving DecidableEq, Repr

/-- An OrderedDict: key/entry pairs in insertion order, keys distinct. -/
abbrev OD (α : Type) := List (String × CacheEntry α)

/-- The keys of a cache in insertion order. -/
def odKeys {α : Type} (c : OD α) : List String := c.map (·.1)

/-- OrderedDict assignment `cache[key] = entry`: overwrite in place when the
key exists (keeping its original position), otherwise append at the end. -/
def odSet {α : Type} (c : OD α) (k : String) (e : CacheEntry α) : OD α :=
  if k ∈ odKeys c then c.map (fun p => if p.1 = k then (k, e) else p)
  else c ++ [(k, e)]

/-- `_trim_cache`: `popitem(last=False)` — drop the oldest-inserted entry —
while the cache is over the size limit. -/
def trimCache {α : Type} (maxSize : Nat) : OD α → OD α
  | [] => []
  | x :: rest => if maxSize < rest.length + 1 then trimCache maxSize rest else x :: rest

/-- The cache mutation performed by `_save_packages_to_cache`: assign the
environment's snapshot entry, then trim to the maximum size. -/
def savePackagesToCache {α : Type} (c : OD α) (k : String) (e : CacheEntry α)
    (maxSize : Nat) : OD α :=
  trimCache maxSize (odSet c k e)

/-- `_get_cached_packages`: a missing key yields nothing; an entry older than
the TTL is deleted as a side effect and yields nothing; otherwise the payload
is returned and the cache — including its insertion order — is untouched. -/
def getCachedPackages {α : Type} (c : OD α) (k : String) (now ttl : Nat) :
    Option α × OD α :=
  match c.find? (fun p => p.1 == k) with
  | none => (none, c)
  | some (_, e) =>
    if ttl < now - e.timestamp then (none, c.filter (fun p => p.1 != k))
    else (some e.payload, c)

/-- A sequence of saves, oldest first. -/
def insertAll {α : Type} (maxSize : Nat) (c : OD α) (l : List (String × CacheEntry α)) : OD α :=
  l.foldl (fun c kv => savePackagesToCache c kv.1 kv.2 maxSize) c

/-! ## C4: registry fetch with retry

Embedding of `_fetch_package_info` (src/pyscope/core.py lines 436-479).  The
network is an oracle giving the outcome each attempt would observe.  A body
read that reaches the size cap raises `ValueError`, which the generic handler
treats like any other transient error. -/

/-- What one attempt of the fetch loop observes. -/
inductive FetchOutcome where
  | success (version : String)
  | http404
  | httpOther
  | oversize
  | netError
deriving DecidableEq, Repr

/-- The outcomes the code retries on: every failure except an HTTP 404. -/
def isTransient : FetchOutcome → Bool
  | .httpOther => true
  | .oversize => true
  | .netError => true
  | _ => false

/-- Observable result of a fetch: the returned string, the number of attempts
performed, and the number of one-second backoff sleeps taken. -/
structure FetchRun where
  result : String
  attemptsMade : Nat
  sleeps : Nat
deriving DecidableEq, Repr

/-- The `for attempt in range(max_retries)` loop of `_fetch_package_info`:
success returns the version; a 404 returns the sentinel at once; any other
failure sleeps one second and retries while attempts remain, else returns the
sentinel. -/
def fetchLoop (outcomes : Nat → FetchOutcome) (attempt : Nat) : Nat → FetchRun
  | 0 => ⟨"Unknown", 0, 0⟩
  | remaining + 1 =>
    match outcomes attempt with
    | .success v => ⟨v, 1, 0⟩
    | .http404 => ⟨"Unknown", 1, 0⟩
    | _ =>
      if remaining = 0 then ⟨"Unknown", 1, 0⟩
      else
        let r := fetchLoop outcomes (attempt + 1) remaining
        ⟨r.result, r.attemptsMade + 1, r.sleeps + 1⟩

/-- `_fetch_package_info` with `max_retries = 3`. -/
def fetchPackageInfo (outcomes : Nat → FetchOutcome) : FetchRun :=
  fetchLoop outcomes 0 3

/-! ## C6: per-package rate limit

Embedding of the head of `_check_single_package_simple`
(src/pyscope/core.py lines 481-506) and of its package-state update.  The
relevant engine state is `last_check_time` (a dict from package name to the
time of the last fetch) together with the package list. -/

/-- The engine state seen by a single-package check. -/
structure CheckState where
  lastCheckTime : List (String × Nat)
  packages : List Pkg
deriving DecidableEq, Repr

/-- `last_check_time.get(pkg_name)`. -/
def lookupTime (m : List (String × Nat)) (k : String) : Option Nat :=
  (m.find? (fun p => p.1 == k)).map (fun p => p.2)

/-- `last_check_time[pkg_name] = now`: overwrite in place or append. -/
def setTime (m : List (String × Nat)) (k : String) (t : Nat) : List (String × Nat) :=
  if k ∈ m.map (fun p => p.1) then m.map (fun p => if p.1 = k then (k, t) else p)
  else m ++ [(k, t)]

/-- The status scan in the rate-limit block: the first package with the exact
name, defaulting to `Unknown` when the package is not in the list. -/
def currentStatus (pkgs : List Pkg) (name : String) : String :=
  match pkgs.find? (fun p => p.name == name) with
  | some p => p.stat
  | none => "Unknown"

/-- How a single-package check can end its rate-limit gate. -/
inductive CheckDecision where
  | aborted
  | skipped
  | fetch
deriving DecidableEq, Repr

/-- The gate at the top of `_check_single_package_simple`: abort on shutdown
or cancellation; a forced check bypasses the whole rate-limit block; otherwise
skip — touching nothing — when the package was checked within the last 30
seconds and its current status is not `Unknown`, and in every other case
record the check time and proceed to the network fetch. -/
def rateLimitGate (s : CheckState) (pkgName : String) (now : Nat)
    (force shuttingDown cancelled : Bool) : CheckDecision × CheckState :=
  if shuttingDown || cancelled then (.aborted, s)
  else if force then (.fetch, s)
  else
    let status := currentStatus s.packages pkgName
    match lookupTime s.lastCheckTime pkgName with
    | some t =>
      if status != "Unknown" && decide (now - t < 30) then (.skipped, s)
      else (.fetch, { s with lastCheckTime := setTime s.lastCheckTime pkgName now })
    | none => (.fetch, { s with lastCheckTime := setTime s.lastCheckTime pkgName now })

/-- Update the first package matching the test, in place. -/
def updateFirstBy (matchFn : Pkg → Bool) (f : Pkg → Pkg) : List Pkg → List Pkg
  | [] => []
  | p :: ps => if matchFn p then f p :: ps else p :: updateFirstBy matchFn f ps

/-- The status determination rule of `_check_single_package_simple`: the
sentinels give `Unknown`, otherwise the comparator decides.  The comparator is
a parameter: the engine imports it from its utilities module. -/
def fetchStatus (cmpOutdated : String → String → Bool) (pkgVer latest : String) : String :=
  if latest == "Unknown" || latest == "Error" then "Unknown"
  else if cmpOutdated pkgVer latest then "Outdated"
  else "Updated"

/-- Write a fetched latest version and status into a package row. -/
def setLatStat (latest status : String) (p : Pkg) : Pkg :=
  { p with lat := latest, stat := status }

/-- The tail of `_check_single_package_simple` after a successful fetch:
write `lat`/`stat` into the first package with the exact name. -/
def applyFetchResult (cmpOutdated : String → String → Bool) (s : CheckState)
    (pkgName pkgVer latest : String) : CheckState :=
  { s with packages := updateFirstBy (fun p => p.name == pkgName) (setLatStat latest (fetchStatus cmpOutdated pkgVer latest)) s.packages }

/-- One whole call of `_check_single_package_simple` whose fetch, when it
happens, observes `latest`. -/
def checkSingleStep (cmpOutdated : String → String → Bool) (s : CheckState)
    (pkgName pkgVer : String) (now : Nat) (force shuttingDown cancelled : Bool)
    (latest : String) : CheckDecision × CheckState :=
  match rateLimitGate s pkgName now force shuttingDown cancelled with
  | (.fetch, s1) => (.fetch, applyFetchResult cmpOutdated s1 pkgName pkgVer latest)
  | other => other

/-! ## C7: consecutive-failure circuit breaker

Embedding of the result-processing loop of `_check_updates_safe_parallel`
(src/pyscope/core.py lines 260-291).  The loop calls `future.result()` on
each completed task: when the call returns, `_consecutive_failures` is reset
to 0 — the worker's Boolean return value is never inspected — and only when
an exception escapes the worker is the counter incremented; at the threshold
(10) every future that has not started yet is cancelled and the loop stops.
A failed per-package check does not raise: `_fetch_package_info` swallows
every error (lines 462-479) and `_check_single_package_simple` catches any
remaining exception and returns `False` (lines 555-577), so `future.result()`
returns normally on a failed check.  The executor is abstracted to a serial
one: each task's fetch happens when the executor starts it, and a cancelled
future never runs. -/

/-- What `future.result()` observes for one task: the worker function
returned — carrying the check's Boolean outcome, `false` being a failed
check, which `_check_single_package_simple` reports by returning rather than
raising — or an exception escaped the worker. -/
inductive WorkerOutcome where
  | returned (checkOk : Bool)
  | raised
deriving DecidableEq, Repr

/-- What becomes of one submitted per-package check task. -/
inductive TaskFate where
  | fetched (out : WorkerOutcome)
  | cancelled
deriving DecidableEq, Repr

/-- The batch with breaker, as the code wires it: a returned result resets
the consecutive-failure counter regardless of the check's outcome; only an
escaped exception increments it, and on reaching the threshold all remaining
tasks are cancelled. -/
def runBatch (threshold : Nat) : List WorkerOutcome → Nat → List TaskFate
  | [], _ => []
  | o :: rest, consec =>
    match o with
    | .returned ok => .fetched (.returned ok) :: runBatch threshold rest 0
    | .raised =>
      if threshold ≤ consec + 1 then .fetched .raised :: rest.map (fun _ => .cancelled)
      else .fetched .raised :: runBatch threshold rest (consec + 1)

/-! ## C8: uninstall failure path

Embedding of `uninstall_package` (src/pyscope/core.py lines 1276-1319) and of
the non-zero-exit branch of `run_pip_with_real_progress`
(src/utils.py lines 330-349).  The subprocess is an oracle delivering the exit
code and the captured output lines. -/

/-- Python `l[-n:]`: the last `n` elements. -/
def lastN {α : Type} (n : Nat) (l : List α) : List α :=
  l.drop (l.length - n)

/-- Python `'\n'.join(lines)`. -/
def joinLines : List String → String
  | [] => ""
  | [s] => s
  | s :: rest => s ++ "\n" ++ joinLines rest

/-- Python `s[:n]` on a string. -/
def takeChars (n : Nat) (s : String) : String :=
  ⟨s.data.take n⟩

/-- Whether the pattern occurs as a contiguous substring of the list. -/
def hasSub : List Char → List Char → Bool
  | [], pat => pat.isEmpty
  | c :: rest, pat => pat.isPrefixOf (c :: rest) || hasSub rest pat

/-- Python `pat in s` on strings. -/
def containsSub (s pat : String) : Bool :=
  hasSub s.data pat.data

/-- The non-zero-exit branch of `run_pip_with_real_progress`: join the last 10
captured lines, then replace recognized patterns by canned user-friendly
messages, otherwise report an `Installation failed:` summary truncated to 200
characters. -/
def pipFailureMessage (allOutput : List String) : String :=
  let errorMsg := if allOutput.isEmpty then "Unknown error" else joinLines (lastN 10 allOutput)
  if containsSub errorMsg "PermissionError" || containsSub (lowerStr errorMsg) "permission denied" then
    "Permission denied - try admin privileges"
  else if containsSub errorMsg "Network is unreachable" || containsSub (lowerStr errorMsg) "connection" then
    "Network error - check internet connection"
  else if containsSub errorMsg "Could not find a version" then
    "Package version not found"
  else
    "Installation failed: " ++ takeChars 200 errorMsg

/-- The `(success, message)` pair `run_pip_with_real_progress` returns once
the subprocess has exited. -/
def runPipResult (returnCode : Int) (allOutput : List String) : Bool × String :=
  if returnCode ≠ 0 then (false, pipFailureMessage allOutput)
  else (true, "Successfully completed")

/-- The body of `uninstall_task`: a failed run raises, so the except branch
reports `str(e)` — the failure message — with `success = False` and the
package list untouched; only a successful run filters the package out of the
in-memory list (case-insensitively). -/
def uninstallTask (packages : List Pkg) (packageName : String) (run : Bool × String) :
    List Pkg × (Bool × String) :=
  match run with
  | (true, _) =>
    (packages.filter (fun p => lowerStr p.name != lowerStr packageName),
     (true, "Uninstalled " ++ packageName))
  | (false, msg) => (packages, (false, msg))

/-- A whole uninstall whose pip subprocess exits with the given code and
output: the new package list and the completion callback's arguments. -/
def uninstallOnExit (packages : List Pkg) (packageName : String) (returnCode : Int)
    (allOutput : List String) : List Pkg × (Bool × String) :=
  uninstallTask packages packageName (runPipResult returnCode allOutput)

/-! ## Sorting

Python's `list.sort(key=...)` is a stable ascending sort; `sortBy` models it
as insertion sort in which a new element goes after the elements it ties
with.  Comparison keys are lower-cased character lists ordered by Mathlib's
lexicographic order on `List Char`, which matches Python's string order by
code point. -/

/-- Python `str.lower()` as a character list (ASCII model). -/
def lowerChars (s : String) : List Char :=
  s.data.map Char.toLower

/-- Stable insertion: `x` is placed before the first element strictly greater
than it. -/
def insertLe {α : Type} (le : α → α → Bool) (x : α) : List α → List α
  | [] => [x]
  | y :: ys => if le x y && !le y x then x :: y :: ys else y :: insertLe le x ys

/-- Stable ascending sort by the Boolean comparison `le`. -/
def sortBy {α : Type} (le : α → α → Bool) (l : List α) : List α :=
  l.foldr (insertLe le) []

/-! ## C5: processing of registry search results

Embedding of `_process_search_results` (src/pyscope/core.py lines 1173-1216;
the copy in src/core.py lines 714-757 is identical).  Raw results are the
dictionaries produced by the three search paths, which always carry `name`,
`version` and `summary` fields. -/

structure RawResult where
  name : String
  version : String
  summary : String
deriving DecidableEq, Repr

structure ProcessedResult where
  name : String
  version : String
  summary : String
  installed : Bool
  installedVersion : Option String
  latestVersion : String
deriving DecidableEq, Repr

/-- Python `str.strip()` (ASCII whitespace model). -/
def stripChars (cs : List Char) : List Char :=
  ((cs.dropWhile Char.isWhitespace).reverse.dropWhile Char.isWhitespace).reverse

/-- Python `str.strip()` on a string. -/
def stripStr (s : String) : String :=
  ⟨stripChars s.data⟩

/-- The `local_packages` dict built under the lock: keyed by lower-cased name,
later packages overwriting earlier ones, as Python dict assignment does. -/
def localLookup (pkgs : List Pkg) (key : List Char) : Option Pkg :=
  pkgs.reverse.find? (fun p => lowerChars p.name == key)

/-- The summary truncation: cut to 150 characters and append an ellipsis. -/
def truncateSummary (s : String) : String :=
  if 150 < s.data.length then ⟨s.data.take 150⟩ ++ "..." else s

/-- One processed row: mark whether the package is installed locally and
prefer the locally known latest version over the registry's. -/
def mkProcessed (localPkgs : List Pkg) (r : RawResult) (name : String) : ProcessedResult :=
  let localInfo := localLookup localPkgs (lowerChars name)
  { name := name
    version := r.version
    summary := truncateSummary r.summary
    installed := localInfo.isSome
    installedVersion := localInfo.map (fun p => p.ver)
    latestVersion := (match localInfo with | some p => p.lat | none => r.version) }

/-- The processing loop: strip each raw name, drop empty names, keep only the
first occurrence of each lower-cased name. -/
def dedupResults (localPkgs : List Pkg) (seen : List (List Char)) :
    List RawResult → List ProcessedResult
  | [] => []
  | r :: rest =>
    let name := stripStr r.name
    if name = "" then dedupResults localPkgs seen rest
    else if lowerChars name ∈ seen then dedupResults localPkgs seen rest
    else mkProcessed localPkgs r name :: dedupResults localPkgs (lowerChars name :: seen) rest

/-- The sort key comparison of `processed.sort`. -/
def procLe (a b : ProcessedResult) : Bool :=
  decide (lowerChars a.name ≤ lowerChars b.name)

/-- `_process_search_results`: empty input gives an empty output, otherwise
dedup then sort by lower-cased name. -/
def processSearchResults (localPkgs : List Pkg) (raw : List RawResult) : List ProcessedResult :=
  if raw.isEmpty then [] else sortBy procLe (dedupResults localPkgs [] raw)

/-- The raw results carrying a given deduplication key. -/
def sameKeyRaw (key : List Char) (r : RawResult) : Bool :=
  (!(stripStr r.name == "")) && (lowerChars (stripStr r.name) == key)

/-! ## C10: the in-memory package list stays sorted by lower-cased name

Every mutation of `self.packages` in src/pyscope/core.py either commits a
list sorted with `key=lambda x: x["name"].lower()` (`load_packages_with_cache`),
appends a row and re-sorts (`check_single_package` discovery,
`_update_after_install`), removes rows preserving order (`uninstall_package`),
or rewrites the non-name fields of a row in place
(`_check_single_package_simple`, `update_package_status`,
`_update_after_install` on an existing row). -/

/-- The sort key comparison of `self.packages.sort`. -/
def nameLe (p q : Pkg) : Bool :=
  decide (lowerChars p.name ≤ lowerChars q.name)

/-- `self.packages.sort(key=lambda x: x["name"].lower())`. -/
def sortPkgs (l : List Pkg) : List Pkg :=
  sortBy nameLe l

/-- The invariant: the list is ascending in lower-cased name. -/
def SortedByName (l : List Pkg) : Prop :=
  l.Pairwise (fun a b => nameLe a b = true)

/-- The mutations of the in-memory package list. -/
inductive EngineOp where
  | loadCommit (newPkgs : List Pkg)
  | discover (name ver : String)
  | installRefresh (name ver lat stat : String)
  | uninstall (name : String)
  | setStatus (name ver lat stat : String)

/-- One mutation, as the code performs it under the lock. -/
def applyOp (pkgs : List Pkg) : EngineOp → List Pkg
  | .loadCommit newPkgs => sortPkgs newPkgs
  | .discover name ver =>
    if pkgs.any (fun q => q.name == name) then pkgs
    else sortPkgs (pkgs ++ [⟨name, ver, "Unknown", "Unknown"⟩])
  | .installRefresh name ver lat stat =>
    if pkgs.any (fun q => lowerChars q.name == lowerChars name) then
      updateFirstBy (fun q => lowerChars q.name == lowerChars name)
        (fun q => ⟨q.name, ver, lat, stat⟩) pkgs
    else sortPkgs (pkgs ++ [⟨name, ver, lat, stat⟩])
  | .uninstall name => pkgs.filter (fun p => lowerChars p.name != lowerChars name)
  | .setStatus name ver lat stat =>
    updateFirstBy (fun q => q.name == name) (fun q => ⟨q.name, ver, lat, stat⟩) pkgs

/-- A whole history of mutations starting from the engine's initial empty
list. -/
def applyOps (ops : List EngineOp) (pkgs : List Pkg) : List Pkg :=
  ops.foldl applyOp pkgs

/-- `filter_packages`: copy-out filtered by status. -/
def filterPackages (mode : String) (pkgs : List Pkg) : List Pkg :=
  if mode == "All" then pkgs
  else if mode == "Outdated" then pkgs.filter (fun p => p.stat == "Outdated")
  else if mode == "Updated" then pkgs.filter (fun p => p.stat == "Updated")
  else []

/-- `search_packages`: rows whose lower-cased name contains the lower-cased
term. -/
def searchLocal (term : String) (pkgs : List Pkg) : List Pkg :=
  pkgs.filter (fun p => hasSub (lowerChars p.name) (lowerChars term))

/-! ## C9: environment identity

Embedding of `_generate_env_id` (src/environments.py lines 446-453) and of
`_get_environment_id` (src/app.py lines 420-437), both computing
`hashlib.md5(path.encode()).hexdigest()[:16]`.  MD5 is implemented below over
byte lists with `Nat` words reduced modulo `2 ^ 32`; `.encode()` is modelled
for ASCII paths as the code points. -/

/-- Reduce to a 32-bit word. -/
def w32 (n : Nat) : Nat := n % 4294967296

/-- Bitwise complement within 32 bits. -/
def md5Not (x : Nat) : Nat := x ^^^ 4294967295

/-- Rotate a 32-bit word left by `s` bits. -/
def rotl32 (x s : Nat) : Nat := w32 (x <<< s) ||| (x >>> (32 - s))

/-- The 64 MD5 round constants `K[i] = floor(2^32 * abs(sin(i + 1)))`. -/
def md5K : List Nat :=
  [3614090360, 3905402710, 606105819, 3250441966, 4118548399, 1200080426, 2821735955, 4249261313,
   1770035416, 2336552879, 4294925233, 2304563134, 1804603682, 4254626195, 2792965006, 1236535329,
   4129170786, 3225465664, 643717713, 3921069994, 3593408605, 38016083, 3634488961, 3889429448,
   568446438, 3275163606, 4107603335, 1163531501, 2850285829, 4243563512, 1735328473, 2368359562,
   4294588738, 2272392833, 1839030562, 4259657740, 2763975236, 1272893353, 4139469664, 3200236656,
   681279174, 3936430074, 3572445317, 76029189, 3654602809, 3873151461, 530742520, 3299628645,
   4096336452, 1126891415, 2878612391, 4237533241, 1700485571, 2399980690, 4293915773, 2240044497,
   1873313359, 4264355552, 2734768916, 1309151649, 4149444226, 3174756917, 718787259, 3951481745]

/-- The per-round left-rotation amounts. -/
def md5S : List Nat :=
  [7, 12, 17, 22, 7, 12, 17, 22, 7, 12, 17, 22, 7, 12, 17, 22,
   5, 9, 14, 20, 5, 9, 14, 20, 5, 9, 14, 20, 5, 9, 14, 20,
   4, 11, 16, 23, 4, 11, 16, 23, 4, 11, 16, 23, 4, 11, 16, 23,
   6, 10, 15, 21, 6, 10, 15, 21, 6, 10, 15, 21, 6, 10, 15, 21]

/-- The nonlinear mixing function of round `i`. -/
def md5F (i b c d : Nat) : Nat :=
  if i < 16 then (b &&& c) ||| (md5Not b &&& d)
  else if i < 32 then (d &&& b) ||| (md5Not d &&& c)
  else if i < 48 then b ^^^ c ^^^ d
  else c ^^^ (b ||| md5Not d)

/-- The message-word schedule of round `i`. -/
def md5G (i : Nat) : Nat :=
  if i < 16 then i
  else if i < 32 then (5 * i + 1) % 16
  else if i < 48 then (3 * i + 5) % 16
  else (7 * i) % 16

structure MD5State where
  a : Nat
  b : Nat
  c : Nat
  d : Nat
deriving DecidableEq, Repr

/-- One of the 64 rounds over a chunk's 16 message words. -/
def md5Round (msg : List Nat) (st : MD5State) (i : Nat) : MD5State :=
  let f := w32 (md5F i st.b st.c st.d + st.a + md5K.getD i 0 + msg.getD (md5G i) 0)
  ⟨st.d, w32 (st.b + rotl32 f (md5S.getD i 0)), st.b, st.c⟩

/-- A 32-bit word from four little-endian bytes. -/
def leWord (b0 b1 b2 b3 : Nat) : Nat := b0 + 256 * (b1 + 256 * (b2 + 256 * b3))

/-- The 16 little-endian message words of a 64-byte chunk. -/
def chunkWords : List Nat → List Nat
  | b0 :: b1 :: b2 :: b3 :: rest => leWord b0 b1 b2 b3 :: chunkWords rest
  | _ => []

/-- Process one 64-byte chunk. -/
def md5Chunk (st : MD5State) (chunk : List Nat) : MD5State :=
  let msg := chunkWords chunk
  let r := (List.range 64).foldl (md5Round msg) st
  ⟨w32 (st.a + r.a), w32 (st.b + r.b), w32 (st.c + r.c), w32 (st.d + r.d)⟩

/-- `k` little-endian bytes of a number. -/
def leBytes : Nat → Nat → List Nat
  | 0, _ => []
  | k + 1, n => n % 256 :: leBytes k (n / 256)

/-- MD5 padding: append `0x80`, zero-fill to 56 mod 64, then the bit length
as a 64-bit little-endian number. -/
def md5Pad (msg : List Nat) : List Nat :=
  let z := (120 - (msg.length + 1) % 64) % 64
  msg ++ [128] ++ List.replicate z 0
    ++ leBytes 8 ((msg.length * 8) % 18446744073709551616)

/-- Fold the chunks; `k` counts the remaining 64-byte chunks. -/
def md5Process (st : MD5State) (bs : List Nat) : Nat → MD5State
  | 0 => st
  | k + 1 => md5Process (md5Chunk st (bs.take 64)) (bs.drop 64) k

/-- The 16 MD5 digest bytes of a byte list. -/
def md5Bytes (msg : List Nat) : List Nat :=
  let padded := md5Pad msg
  let st := md5Process ⟨1732584193, 4023233417, 2562383102, 271733878⟩ padded (padded.length / 64)
  leBytes 4 st.a ++ leBytes 4 st.b ++ leBytes 4 st.c ++ leBytes 4 st.d

/-- Lower-case hexadecimal digit. -/
def hexDigitChar (n : Nat) : Char := if n < 10 then Char.ofNat (48 + n) else Char.ofNat (87 + n)

/-- Lower-case hexadecimal rendering of a byte list. -/
def bytesToHex : List Nat → List Char
  | [] => []
  | b :: rest => hexDigitChar (b / 16) :: hexDigitChar (b % 16) :: bytesToHex rest

/-- `str.encode()` for the ASCII paths of interest: the code points. -/
def strBytes (s : String) : List Nat := s.data.map Char.toNat

/-- `hashlib.md5(s.encode()).hexdigest()` as a character list. -/
def md5HexChars (s : String) : List Char := bytesToHex (md5Bytes (strBytes s))

/-- `hashlib.md5(s.encode()).hexdigest()`. -/
def md5Hex (s : String) : String := ⟨md5HexChars s⟩

/-- `_generate_env_id` from src/environments.py: hash the env path when
present (and non-empty), else the interpreter path, else the current
timestamp rendered as a string. -/
def generateEnvId (pythonPath : String) (envPath : Option String)
    (nowTimestamp : String) : String :=
  if envPath.getD "" ≠ "" then ⟨(md5HexChars (envPath.getD "")).take 16⟩
  else if pythonPath ≠ "" then ⟨(md5HexChars pythonPath).take 16⟩
  else ⟨(md5HexChars nowTimestamp).take 16⟩

/-- The current environment record as `_get_environment_id` in src/app.py
reads it: the `python_path` and `path` entries, absent keys giving the empty
string. -/
structure EnvRecord where
  pythonPath : String
  envPath : String
deriving DecidableEq, Repr

/-- `_get_environment_id` from src/app.py: hash the interpreter path first,
then the env path, else the literal `default`. -/
def appGetEnvironmentId (currentEnv : Option EnvRecord) : String :=
  match currentEnv with
  | none => "default"
  | some env =>
    if env.pythonPath ≠ "" then ⟨(md5HexChars env.pythonPath).take 16⟩
    else if env.envPath ≠ "" then ⟨(md5HexChars env.envPath).take 16⟩
    else "default"

end PyScope

namespace PyScope

/-! ## Helper lemmas -/

theorem leadDigits_eq_takeWhile : ∀ cs : List Char, leadDigits cs = cs.takeWhile Char.isDigit := by
  intro cs
  induction cs with
  | nil => rfl
  | cons c cs ih =>
    by_cases h : c.isDigit
    · simp [leadDigits, h, List.takeWhile_cons, ih]
    · simp [leadDigits, h, List.takeWhile_cons]

theorem versionPart_eq_amendedPart : ∀ cs : List Char, versionPart cs = amendedPart cs := by
  intro cs
  induction cs with
  | nil => rfl
  | cons c cs ih =>
    by_cases h : c.isDigit
    · simp [versionPart, amendedPart, firstDigitRun, h, List.dropWhile_cons, List.takeWhile_cons,
        leadDigits_eq_takeWhile]
    · simpa [versionPart, amendedPart, firstDigitRun, h, List.dropWhile_cons] using ih

theorem tupleLt_iff_lex : ∀ a b : List Nat, tupleLt a b = true ↔ List.Lex (· < ·) a b := by
  intro a
  induction a with
  | nil =>
    intro b
    cases b with
    | nil => simp [tupleLt]
    | cons b bs => simp [tupleLt]; exact List.Lex.nil
  | cons a as ih =>
    intro b
    cases b with
    | nil => simp [tupleLt]
    | cons b bs =>
      rcases Nat.lt_trichotomy a b with hab | hab | hab
      · simp [tupleLt, hab]
        exact List.Lex.rel hab
      · subst hab
        simp [tupleLt, Nat.lt_irrefl]
        constructor
        · intro h; exact List.Lex.cons ((ih bs).mp h)
        · intro h
          cases h with
          | cons h => exact (ih bs).mpr h
          | rel h => exact absurd h (Nat.lt_irrefl a)
      · have hab2 : ¬ a < b := Nat.lt_asymm hab
        simp [tupleLt, hab2, hab]
        intro h
        cases h with
        | cons h => exact Nat.lt_irrefl a hab
        | rel h => exact Nat.lt_asymm hab h

theorem odSet_of_not_mem {α : Type} (c : OD α) (k : String) (e : CacheEntry α)
    (h : k ∉ odKeys c) : odSet c k e = c ++ [(k, e)] := by
  simp [odSet, h]

theorem odKeys_append_single {α : Type} (c : OD α) (k : String) (e : CacheEntry α) :
    odKeys (c ++ [(k, e)]) = odKeys c ++ [k] := by
  simp [odKeys]

theorem trimCache_of_le {α : Type} (maxSize : Nat) :
    ∀ c : OD α, c.length ≤ maxSize → trimCache maxSize c = c := by
  intro c hc
  cases c with
  | nil => rfl
  | cons x rest =>
    have : ¬ maxSize < rest.length + 1 := by
      simp at hc
      omega
    simp [trimCache, this]

theorem trimCache_of_succ {α : Type} (maxSize : Nat) :
    ∀ c : OD α, c.length = maxSize + 1 → trimCache maxSize c = c.tail := by
  intro c hc
  cases c with
  | nil => simp at hc
  | cons x rest =>
    have hlen : rest.length = maxSize := by simp at hc; omega
    have hlt : maxSize < rest.length + 1 := by omega
    simp [trimCache, hlt, trimCache_of_le maxSize rest (le_of_eq hlen)]

theorem insertAll_keys {α : Type} (maxSize : Nat) (hmax : 1 ≤ maxSize) :
    ∀ (l : List (String × CacheEntry α)) (c : OD α),
      (odKeys c ++ l.map (·.1)).Nodup → c.length ≤ maxSize →
      odKeys (insertAll maxSize c l)
        = (odKeys c ++ l.map (·.1)).drop ((c.length + l.length) - maxSize) := by
  intro l
  induction l with
  | nil =>
    intro c hnd hc
    have h0 : c.length - maxSize = 0 := by omega
    simp [insertAll, h0]
  | cons kv rest ih =>
    intro c hnd hc
    obtain ⟨k, e⟩ := kv
    have hmapcons : ((k, e) :: rest).map (fun x => x.1) = k :: rest.map (fun x => x.1) := rfl
    rw [hmapcons] at hnd
    have hk : k ∉ odKeys c := by
      intro hmem
      exact List.disjoint_of_nodup_append hnd hmem (by simp)
    have hstep : insertAll maxSize c ((k, e) :: rest)
        = insertAll maxSize (savePackagesToCache c k e maxSize) rest := rfl
    have hset : odSet c k e = c ++ [(k, e)] := odSet_of_not_mem c k e hk
    rcases Nat.lt_or_ge c.length maxSize with hlt | hge
    · have hsave : savePackagesToCache c k e maxSize = c ++ [(k, e)] := by
        rw [savePackagesToCache, hset]
        exact trimCache_of_le maxSize _ (by simp; omega)
      rw [hstep, hsave]
      have hnd2 : (odKeys (c ++ [(k, e)]) ++ rest.map (fun x => x.1)).Nodup := by
        rw [odKeys_append_single]
        simpa [List.append_assoc] using hnd
      have hlen2 : (c ++ [(k, e)]).length ≤ maxSize := by simp; omega
      rw [ih _ hnd2 hlen2, odKeys_append_single]
      have harith : (c ++ [(k, e)]).length + rest.length - maxSize
          = c.length + ((k, e) :: rest).length - maxSize := by simp; omega
      rw [harith]
      congr 1
      simp [List.append_assoc]
    · have hlen : c.length = maxSize := le_antisymm hc hge
      cases c with
      | nil => simp at hlen; omega
      | cons y c2 =>
        have hsave : savePackagesToCache (y :: c2) k e maxSize = c2 ++ [(k, e)] := by
          rw [savePackagesToCache, hset]
          have hl : ((y :: c2) ++ [(k, e)]).length = maxSize + 1 := by
            simp at hlen ⊢
            omega
          rw [trimCache_of_succ maxSize _ hl]
          rfl
        rw [hstep, hsave]
        have hcons : odKeys (y :: c2) = y.1 :: odKeys c2 := rfl
        rw [hcons] at hnd
        have hnd2 : (odKeys (c2 ++ [(k, e)]) ++ rest.map (fun x => x.1)).Nodup := by
          rw [odKeys_append_single]
          have h1 : ((odKeys c2 ++ [k]) ++ rest.map (fun x => x.1)).Nodup := by
            have h2 : (y.1 :: (odKeys c2 ++ k :: rest.map (fun x => x.1))).Nodup := by
              simpa using hnd
            have h3 := List.Nodup.of_cons h2
            simpa [List.append_assoc] using h3
          exact h1
        have hlen2 : (c2 ++ [(k, e)]).length ≤ maxSize := by
          simp at hlen ⊢
          omega
        rw [ih _ hnd2 hlen2, odKeys_append_single]
        have hidx1 : (c2 ++ [(k, e)]).length + rest.length - maxSize = rest.length := by
          simp at hlen ⊢
          omega
        have hidx2 : (y :: c2).length + ((k, e) :: rest).length - maxSize = rest.length + 1 := by
          simp at hlen ⊢
          omega
    
        rw [hidx1, hidx2, hcons, hmapcons]
        simp only [List.cons_append, List.drop_succ_cons]
        congr 1
        simp [List.append_assoc]

theorem fetchLoop3_eq (o : Nat → FetchOutcome) :
    fetchPackageInfo o =
      match o 0 with
      | .success v => ⟨v, 1, 0⟩
      | .http404 => ⟨"Unknown", 1, 0⟩
      | _ =>
        match o 1 with
        | .success v => ⟨v, 2, 1⟩
        | .http404 => ⟨"Unknown", 2, 1⟩
        | _ =>
          match o 2 with
          | .success v => ⟨v, 3, 2⟩
          | .http404 => ⟨"Unknown", 3, 2⟩
          | _ => ⟨"Unknown", 3, 2⟩ := by
  cases h0 : o 0 <;> cases h1 : o 1 <;> cases h2 : o 2 <;>
    simp [fetchPackageInfo, fetchLoop, h0, h1, h2]

theorem find?_setTime_mem (m : List (String × Nat)) (k : String) (t : Nat)
    (h : k ∈ m.map (fun p => p.1)) :
    (m.map (fun p => if p.1 = k then (k, t) else p)).find? (fun p => p.1 == k) = some (k, t) := by
  induction m with
  | nil => simp at h
  | cons p ps ih =>
    by_cases hp : p.1 = k
    · simp [hp]
    · have h2 : k ∈ ps.map (fun p => p.1) := by
        simp at h
        rcases h with h | h
        · exact absurd h.symm hp
        · simpa using h
      simp [hp, ih h2]

theorem lookupTime_setTime (m : List (String × Nat)) (k : String) (t : Nat) :
    lookupTime (setTime m k t) k = some t := by
  unfold setTime
  by_cases h : k ∈ m.map (fun p => p.1)
  · simp only [h, if_true]
    simp [lookupTime, find?_setTime_mem m k t h]
  · simp only [h, if_false]
    have hnone : m.find? (fun p => p.1 == k) = none := by
      rw [List.find?_eq_none]
      intro x hx
      simp only [beq_iff_eq]
      intro hxk
      exact h (by simpa [hxk] using List.mem_map_of_mem (fun p => p.1) hx)
    simp [lookupTime, List.find?_append, hnone]

theorem find?_updateFirstBy (l : List Pkg) (n : String) (f : Pkg → Pkg)
    (hf : ∀ p, (f p).name = p.name) :
    (updateFirstBy (fun q => q.name == n) f l).find? (fun q => q.name == n)
      = (l.find? (fun q => q.name == n)).map f := by
  induction l with
  | nil => simp [updateFirstBy]
  | cons p ps ih =>
    by_cases hp : p.name = n
    · have : ((f p).name == n) = true := by simp [hf, hp]
      simp [updateFirstBy, hp, this]
    · simp [updateFirstBy, hp, ih]

theorem runBatch_returned_all_fetched (t : Nat) :
    ∀ (outcomes : List WorkerOutcome) (consec : Nat),
      (∀ o ∈ outcomes, o ≠ WorkerOutcome.raised) →
      runBatch t outcomes consec = outcomes.map TaskFate.fetched := by
  intro outcomes
  induction outcomes with
  | nil => intro consec h; rfl
  | cons o rest ih =>
    intro consec h
    cases o with
    | returned ok =>
      have hrest : ∀ o ∈ rest, o ≠ WorkerOutcome.raised :=
        fun o ho => h o (List.mem_cons_of_mem _ ho)
      unfold runBatch
      rw [ih 0 hrest]
      rfl
    | raised => exact absurd rfl (h _ (List.mem_cons_self _ _))

theorem insertLe_perm {α : Type} (le : α → α → Bool) (x : α) :
    ∀ l : List α, List.Perm (insertLe le x l) (x :: l) := by
  intro l
  induction l with
  | nil => rfl
  | cons y ys ih =>
    unfold insertLe
    split
    · rfl
    · exact (List.Perm.cons y ih).trans (List.Perm.swap x y ys)

theorem sortBy_perm {α : Type} (le : α → α → Bool) :
    ∀ l : List α, List.Perm (sortBy le l) l := by
  intro l
  induction l with
  | nil => rfl
  | cons x xs ih =>
    have h : sortBy le (x :: xs) = insertLe le x (sortBy le xs) := rfl
    rw [h]
    exact (insertLe_perm le x (sortBy le xs)).trans (List.Perm.cons x ih)

theorem pairwise_insertLe {α : Type} (le : α → α → Bool)
    (htot : ∀ a b, le a b = true ∨ le b a = true)
    (htrans : ∀ a b c, le a b = true → le b c = true → le a c = true) (x : α) :
    ∀ l : List α, l.Pairwise (fun a b => le a b = true) →
      (insertLe le x l).Pairwise (fun a b => le a b = true) := by
  intro l
  induction l with
  | nil => intro h; simp [insertLe]
  | cons y ys ih =>
    intro h
    rcases List.pairwise_cons.mp h with ⟨hy, hys⟩
    unfold insertLe
    split
    · rename_i hcond
      simp only [Bool.and_eq_true, Bool.not_eq_eq_eq_not, Bool.not_true] at hcond
      refine List.pairwise_cons.mpr ⟨?_, h⟩
      intro b hb
      rcases List.mem_cons.mp hb with rfl | hb2
      · exact hcond.1
      · exact htrans x y b hcond.1 (hy _ hb2)
    · rename_i hcond
      have hyx : le y x = true := by
        rcases htot x y with hxy | hyx
        · by_cases hyx2 : le y x = true
          · exact hyx2
          · exact absurd (by simp [hxy, hyx2]) hcond
        · exact hyx
      refine List.pairwise_cons.mpr ⟨?_, ih hys⟩
      intro b hb
      have hb2 : b = x ∨ b ∈ ys := by
        have := (insertLe_perm le x ys).mem_iff.mp hb
        simpa using this
      rcases hb2 with rfl | hb2
      · exact hyx
      · exact hy _ hb2

theorem sortBy_sorted {α : Type} (le : α → α → Bool)
    (htot : ∀ a b, le a b = true ∨ le b a = true)
    (htrans : ∀ a b c, le a b = true → le b c = true → le a c = true) :
    ∀ l : List α, (sortBy le l).Pairwise (fun a b => le a b = true) := by
  intro l
  induction l with
  | nil => simp [sortBy]
  | cons x xs ih => exact pairwise_insertLe le htot htrans x _ ih

theorem procLe_total : ∀ a b : ProcessedResult, procLe a b = true ∨ procLe b a = true := by
  intro a b
  rcases le_total (lowerChars a.name) (lowerChars b.name) with h | h
  · exact Or.inl (decide_eq_true h)
  · exact Or.inr (decide_eq_true h)

theorem procLe_trans : ∀ a b c : ProcessedResult,
    procLe a b = true → procLe b c = true → procLe a c = true := by
  intro a b c h1 h2
  exact decide_eq_true (le_trans (of_decide_eq_true h1) (of_decide_eq_true h2))

theorem dedup_mem_spec (L : List Pkg) :
    ∀ (raw : List RawResult) (seen : List (List Char)) (o : ProcessedResult),
      o ∈ dedupResults L seen raw →
      lowerChars o.name ∉ seen ∧
      ∃ r, (raw.filter (sameKeyRaw (lowerChars o.name))).head? = some r
        ∧ o = mkProcessed L r (stripStr r.name) := by
  intro raw
  induction raw with
  | nil => intro seen o ho; simp [dedupResults] at ho
  | cons r rest ih =>
    intro seen o ho
    unfold dedupResults at ho
    by_cases hempty : stripStr r.name = ""
    · rw [if_pos hempty] at ho
      obtain ⟨hnot, r2, hr2, ho2⟩ := ih seen o ho
      have hpred : sameKeyRaw (lowerChars o.name) r = false := by
        simp [sameKeyRaw, hempty]
      refine ⟨hnot, r2, ?_, ho2⟩
      rw [List.filter_cons, hpred]
      exact hr2
    · rw [if_neg hempty] at ho
      by_cases hseen : lowerChars (stripStr r.name) ∈ seen
      · rw [if_pos hseen] at ho
        obtain ⟨hnot, r2, hr2, ho2⟩ := ih seen o ho
        have hne : lowerChars (stripStr r.name) ≠ lowerChars o.name := by
          intro he
          rw [he] at hseen
          exact hnot hseen
        have hpred : sameKeyRaw (lowerChars o.name) r = false := by
          simp [sameKeyRaw, hempty, hne]
        refine ⟨hnot, r2, ?_, ho2⟩
        rw [List.filter_cons, hpred]
        exact hr2
      · rw [if_neg hseen] at ho
        rcases List.mem_cons.mp ho with rfl | ho2
        · have hkey : lowerChars (mkProcessed L r (stripStr r.name)).name
              = lowerChars (stripStr r.name) := rfl
          have hpred : sameKeyRaw (lowerChars (mkProcessed L r (stripStr r.name)).name) r = true := by
            simp [sameKeyRaw, hempty, hkey]
          refine ⟨by rw [hkey]; exact hseen, r, ?_, rfl⟩
          rw [List.filter_cons, hpred]
          rfl
        · obtain ⟨hnot, r2, hr2, ho3⟩ := ih _ o ho2
          have hnot2 : lowerChars o.name ∉ seen :=
            fun h => hnot (List.mem_cons_of_mem _ h)
          have hne : lowerChars (stripStr r.name) ≠ lowerChars o.name := by
            intro he
            exact hnot (he ▸ List.mem_cons_self _ _)
          have hpred : sameKeyRaw (lowerChars o.name) r = false := by
            simp [sameKeyRaw, hempty, hne]
          refine ⟨hnot2, r2, ?_, ho3⟩
          rw [List.filter_cons, hpred]
          exact hr2

theorem dedup_keys_nodup (L : List Pkg) :
    ∀ (raw : List RawResult) (seen : List (List Char)),
      ((dedupResults L seen raw).map (fun o => lowerChars o.name)).Nodup := by
  intro raw
  induction raw with
  | nil => intro seen; simp [dedupResults]
  | cons r rest ih =>
    intro seen
    unfold dedupResults
    by_cases hempty : stripStr r.name = ""
    · rw [if_pos hempty]; exact ih seen
    · rw [if_neg hempty]
      by_cases hseen : lowerChars (stripStr r.name) ∈ seen
      · rw [if_pos hseen]; exact ih seen
      · rw [if_neg hseen]
        simp only [List.map_cons]
        refine List.nodup_cons.mpr ⟨?_, ih _⟩
        intro hmem
        rcases List.mem_map.mp hmem with ⟨o, ho, hko⟩
        have h1 := (dedup_mem_spec L rest _ o ho).1
        exact h1 (hko ▸ List.mem_cons_self _ _)

theorem dedup_complete (L : List Pkg) :
    ∀ (raw : List RawResult) (seen : List (List Char)) (r : RawResult),
      r ∈ raw → stripStr r.name ≠ "" → lowerChars (stripStr r.name) ∉ seen →
      ∃ o ∈ dedupResults L seen raw,
        lowerChars o.name = lowerChars (stripStr r.name) := by
  intro raw
  induction raw with
  | nil => intro seen r hr; simp at hr
  | cons r0 rest ih =>
    intro seen r hr hname hseenr
    unfold dedupResults
    rcases List.mem_cons.mp hr with rfl | hr2
    · rw [if_neg hname, if_neg hseenr]
      exact ⟨mkProcessed L r (stripStr r.name), List.mem_cons_self _ _, rfl⟩
    · by_cases hempty : stripStr r0.name = ""
      · rw [if_pos hempty]
        exact ih seen r hr2 hname hseenr
      · rw [if_neg hempty]
        by_cases hseen0 : lowerChars (stripStr r0.name) ∈ seen
        · rw [if_pos hseen0]
          exact ih seen r hr2 hname hseenr
        · rw [if_neg hseen0]
          by_cases hkeq : lowerChars (stripStr r.name) = lowerChars (stripStr r0.name)
          · exact ⟨mkProcessed L r0 (stripStr r0.name), List.mem_cons_self _ _, hkeq.symm⟩
          · have hseenr2 : lowerChars (stripStr r.name) ∉ lowerChars (stripStr r0.name) :: seen := by
              intro h
              rcases List.mem_cons.mp h with h | h
              · exact hkeq h
              · exact hseenr h
            obtain ⟨o, ho, hk⟩ := ih _ r hr2 hname hseenr2
            exact ⟨o, List.mem_cons_of_mem _ ho, hk⟩

theorem nameLe_total : ∀ a b : Pkg, nameLe a b = true ∨ nameLe b a = true := by
  intro a b
  rcases le_total (lowerChars a.name) (lowerChars b.name) with h | h
  · exact Or.inl (decide_eq_true h)
  · exact Or.inr (decide_eq_true h)

theorem nameLe_trans : ∀ a b c : Pkg,
    nameLe a b = true → nameLe b c = true → nameLe a c = true := by
  intro a b c h1 h2
  exact decide_eq_true (le_trans (of_decide_eq_true h1) (of_decide_eq_true h2))

theorem nameLe_congr_left (p q b : Pkg) (h : p.name = q.name) :
    nameLe p b = nameLe q b := by
  unfold nameLe
  rw [lowerChars, h, ← lowerChars]

theorem sortPkgs_sorted (l : List Pkg) : SortedByName (sortPkgs l) :=
  sortBy_sorted nameLe nameLe_total nameLe_trans l

theorem mem_updateFirstBy (m : Pkg → Bool) (f : Pkg → Pkg) :
    ∀ (l : List Pkg) (b : Pkg), b ∈ updateFirstBy m f l →
      b ∈ l ∨ ∃ q ∈ l, b = f q := by
  intro l
  induction l with
  | nil => intro b hb; simp [updateFirstBy] at hb
  | cons p ps ih =>
    intro b hb
    unfold updateFirstBy at hb
    split at hb
    · rcases List.mem_cons.mp hb with rfl | hb2
      · exact Or.inr ⟨p, List.mem_cons_self _ _, rfl⟩
      · exact Or.inl (List.mem_cons_of_mem _ hb2)
    · rcases List.mem_cons.mp hb with rfl | hb2
      · exact Or.inl (List.mem_cons_self _ _)
      · rcases ih b hb2 with h | ⟨q, hq, he⟩
        · exact Or.inl (List.mem_cons_of_mem _ h)
        · exact Or.inr ⟨q, List.mem_cons_of_mem _ hq, he⟩

theorem pairwise_updateFirstBy (m : Pkg → Bool) (f : Pkg → Pkg)
    (hf : ∀ p, (f p).name = p.name) :
    ∀ l : List Pkg, SortedByName l → SortedByName (updateFirstBy m f l) := by
  intro l
  induction l with
  | nil => intro h; exact h
  | cons p ps ih =>
    intro h
    rcases List.pairwise_cons.mp h with ⟨hp, hps⟩
    unfold updateFirstBy
    split
    · refine List.pairwise_cons.mpr ⟨?_, hps⟩
      intro b hb
      rw [nameLe_congr_left (f p) p b (hf p)]
      exact hp b hb
    · refine List.pairwise_cons.mpr ⟨?_, ih hps⟩
      intro b hb
      rcases mem_updateFirstBy m f ps b hb with h2 | ⟨q, hq, rfl⟩
      · exact hp b h2
      · have : nameLe p (f q) = nameLe p q := by
          unfold nameLe
          rw [lowerChars, hf q, ← lowerChars]
        rw [this]
        exact hp q hq

theorem sorted_applyOp (pkgs : List Pkg) (op : EngineOp) (h : SortedByName pkgs) :
    SortedByName (applyOp pkgs op) := by
  cases op with
  | loadCommit newPkgs => exact sortPkgs_sorted newPkgs
  | discover name ver =>
    simp only [applyOp]
    split
    · exact h
    · exact sortPkgs_sorted _
  | installRefresh name ver lat stat =>
    simp only [applyOp]
    split
    · exact pairwise_updateFirstBy (fun q => lowerChars q.name == lowerChars name)
        (fun q => ⟨q.name, ver, lat, stat⟩) (fun p => rfl) pkgs h
    · exact sortPkgs_sorted _
  | uninstall name =>
    exact List.Pairwise.sublist (List.filter_sublist pkgs) h
  | setStatus name ver lat stat =>
    exact pairwise_updateFirstBy (fun q => q.name == name)
      (fun q => ⟨q.name, ver, lat, stat⟩) (fun p => rfl) pkgs h

theorem commitLoad_loadGeneration (s : EngineState) (t : Nat) (ps : List Pkg) :
    (commitLoad s t ps).loadGeneration = s.loadGeneration := by
  unfold commitLoad
  split <;> rfl

theorem loadGeneration_runLoadEvents (es : List LoadEvent) :
    ∀ s : EngineState,
      (runLoadEvents s es).loadGeneration = s.loadGeneration + countSubmits es := by
  induction es with
  | nil => intro s; simp [runLoadEvents, countSubmits]
  | cons e es ih =>
    intro s
    have hstep : runLoadEvents s (e :: es) = runLoadEvents (loadStep s e) es := rfl
    cases e with
    | submit =>
      rw [hstep, ih]
      simp [loadStep, submitLoad, countSubmits, List.countP_cons]
      omega
    | commit t ps =>
      rw [hstep, ih]
      simp [loadStep, commitLoad_loadGeneration, countSubmits, List.countP_cons]

end PyScope

namespace PyScope

/-! ## Claim theorems -/

/-- C2, counterexample: the claim asserts that `is_outdated` agrees with a
zero-padded, leading-digit-run reference comparison, and in particular that
`is_outdated "1.0" "1.0.0" = false`.  On the code, the tuple comparison treats
a strict prefix as smaller (no zero padding), so `is_outdated "1.0" "1.0.0"`
is `true`; and the digit extraction takes the first digit run anywhere in a
component, so `is_outdated "rc0" "rc1"` is `true` where the reference gives
`false`. -/
theorem C2_counterexample :
    is_outdated "1.0" "1.0.0" = true
    ∧ specRefIsOutdated "1.0" "1.0.0" = false
    ∧ is_outdated "rc0" "rc1" = true
    ∧ specRefIsOutdated "rc0" "rc1" = false := by
  refine ⟨by decide, by decide, by decide, by decide⟩

/-- C2, amended: `is_outdated` equals the reference definition in which each
dot-separated component contributes the first run of digits found anywhere in
it (0 when it has no digit), and the integer tuples are compared
lexicographically with a strict prefix counting as smaller (no zero padding);
in particular `is_outdated "1.2.0" "1.3.0" = true`,
`is_outdated "2.0.0" "1.9.9" = false`, `is_outdated "1.0" "1.0.0" = true`,
`is_outdated "abc" "1.0.0" = true`, and the function is total (a Lean
function, it returns a Boolean on every pair of strings and cannot raise). -/
theorem C2_version_comparison :
    (∀ installed latest : String,
      is_outdated installed latest = true ↔ amendedIsOutdated installed latest)
    ∧ is_outdated "1.2.0" "1.3.0" = true
    ∧ is_outdated "2.0.0" "1.9.9" = false
    ∧ is_outdated "1.0" "1.0.0" = true
    ∧ is_outdated "abc" "1.0.0" = true := by
  refine ⟨fun installed latest => ?_, by decide, by decide, by decide, by decide⟩
  have h : parse_version installed = amendedTuple installed ∧
      parse_version latest = amendedTuple latest := by
    constructor <;>
      simp [parse_version, amendedTuple, versionPart_eq_amendedPart]
  unfold is_outdated amendedIsOutdated
  rw [h.1, h.2]
  exact tupleLt_iff_lex _ _

/-- C1: if the load generation counter is incremented between a load cycle's
submission and its commit (here: the event sequence run in between contains at
least one further submission), then the cycle's commit step is a no-op — the
engine state, and in particular the in-memory package list, is exactly what it
was before the commit, so the list is unchanged by the stale cycle and can
only reflect cycles submitted later. -/
theorem C1_stale_load_commits_nothing (s0 : EngineState) (es : List LoadEvent)
    (ps : List Pkg) (h : 0 < countSubmits es) :
    commitLoad (runLoadEvents (submitLoad s0).1 es) (submitLoad s0).2 ps
      = runLoadEvents (submitLoad s0).1 es := by
  have hg := loadGeneration_runLoadEvents es (submitLoad s0).1
  unfold commitLoad
  have hne : ¬ (runLoadEvents (submitLoad s0).1 es).loadGeneration = (submitLoad s0).2 := by
    simp only [submitLoad] at hg ⊢
    omega
  simp [hne]

/-- C1 witness: a concrete stale cycle — submission at generation 0, one
further submission in between — commits nothing. -/
theorem C1_witness :
    commitLoad (runLoadEvents (submitLoad ⟨0, []⟩).1 [LoadEvent.submit])
        (submitLoad (⟨0, []⟩ : EngineState)).2 [⟨"requests", "2.0.0", "Unknown", "Unknown"⟩]
      = runLoadEvents (submitLoad ⟨0, []⟩).1 [LoadEvent.submit] :=
  C1_stale_load_commits_nothing ⟨0, []⟩ [LoadEvent.submit]
    [⟨"requests", "2.0.0", "Unknown", "Unknown"⟩] (by decide)

/-- C3: the package cache is bounded with insertion-order eviction.  Starting
from an empty cache, saving `maxSize + 1` distinct keys leaves exactly
`maxSize` entries; the earliest-inserted key is the one evicted and the
remaining keys are exactly the later ones in insertion order.  A read of a
non-expired entry returns its payload and leaves the cache — hence every
entry's eviction priority — completely unchanged, so eviction depends only on
insertion order. -/
theorem C3_cache_bound_insertion_order (maxSize : Nat)
    (l : List (String × CacheEntry (List Pkg))) (k0 : String) (ks : List String)
    (hmax : 1 ≤ maxSize) (hlen : l.length = maxSize + 1)
    (hnd : (l.map (fun x => x.1)).Nodup) (hks : l.map (fun x => x.1) = k0 :: ks) :
    (insertAll maxSize [] l).length = maxSize
    ∧ odKeys (insertAll maxSize [] l) = ks
    ∧ k0 ∉ odKeys (insertAll maxSize [] l)
    ∧ (∀ (c : OD (List Pkg)) (key : String) (now ttl : Nat) (p : String)
        (e : CacheEntry (List Pkg)),
        c.find? (fun q => q.1 == key) = some (p, e) → now - e.timestamp ≤ ttl →
        getCachedPackages c key now ttl = (some e.payload, c)) := by
  have hnd0 : (odKeys ([] : OD (List Pkg)) ++ l.map (fun x => x.1)).Nodup := by
    simpa [odKeys] using hnd
  have hkeys := insertAll_keys maxSize hmax l [] hnd0 (by simp)
  have hdrop : List.length ([] : OD (List Pkg)) + l.length - maxSize = 1 := by
    simp
    omega
  rw [hdrop] at hkeys
  simp only [odKeys, List.map_nil, List.nil_append] at hkeys
  rw [hks] at hkeys
  simp only [List.drop_succ_cons, List.drop_zero] at hkeys
  have hkeys2 : odKeys (insertAll maxSize [] l) = ks := hkeys
  refine ⟨?_, hkeys2, ?_, ?_⟩
  · have h1 : (odKeys (insertAll maxSize [] l)).length = ks.length := by rw [hkeys2]
    have h2 : ks.length = maxSize := by
      have := congrArg List.length hks
      simp at this
      omega
    rw [odKeys] at h1
    simpa using h1.trans h2
  · rw [hkeys2]
    rw [hks] at hnd
    exact (List.nodup_cons.mp hnd).1
  · intro c key now ttl p e hfind hfresh
    unfold getCachedPackages
    rw [hfind]
    have : ¬ ttl < now - e.timestamp := by omega
    simp [this]

/-- C3 witness: with `maxSize = 2`, saving the three distinct keys `a`, `b`,
`c` leaves the two entries `b`, `c` (key `a` evicted), and a fresh read leaves
a concrete cache unchanged. -/
theorem C3_witness :
    (insertAll 2 [] [("a", (⟨[], 0⟩ : CacheEntry (List Pkg))), ("b", ⟨[], 1⟩), ("c", ⟨[], 2⟩)]).length = 2
    ∧ odKeys (insertAll 2 []
        [("a", (⟨[], 0⟩ : CacheEntry (List Pkg))), ("b", ⟨[], 1⟩), ("c", ⟨[], 2⟩)]) = ["b", "c"]
    ∧ getCachedPackages [("k", (⟨[⟨"requests", "2.0.0", "Unknown", "Unknown"⟩], 5⟩ : CacheEntry (List Pkg)))] "k" 10 3600
        = (some [⟨"requests", "2.0.0", "Unknown", "Unknown"⟩],
           [("k", ⟨[⟨"requests", "2.0.0", "Unknown", "Unknown"⟩], 5⟩)]) := by
  have h := C3_cache_bound_insertion_order 2
    [("a", (⟨[], 0⟩ : CacheEntry (List Pkg))), ("b", ⟨[], 1⟩), ("c", ⟨[], 2⟩)]
    "a" ["b", "c"] (by decide) (by decide) (by decide) (by decide)
  exact ⟨h.1, h.2.1, h.2.2.2 _ "k" 10 3600 "k" ⟨[⟨"requests", "2.0.0", "Unknown", "Unknown"⟩], 5⟩
    (by decide) (by decide)⟩

/-- C4: `_fetch_package_info` makes at most 3 attempts with one one-second
backoff sleep between consecutive attempts; an HTTP 404 observed at any
reached attempt returns "Unknown" immediately with no further attempt and no
further sleep; when every attempt fails transiently (including oversize
response bodies, which raise and are handled like any transient error) the
function returns "Unknown" after 3 attempts rather than raising; and on every
oracle the function terminates with a string — either "Unknown" or the
version delivered by a successful attempt. -/
theorem C4_fetch_retry (o : Nat → FetchOutcome) :
    ((fetchPackageInfo o).attemptsMade ≤ 3
      ∧ (fetchPackageInfo o).sleeps = (fetchPackageInfo o).attemptsMade - 1)
    ∧ (∀ k, k < 3 → (∀ j, j < k → isTransient (o j) = true) → o k = .http404 →
        fetchPackageInfo o = ⟨"Unknown", k + 1, k⟩)
    ∧ ((∀ j, j < 3 → isTransient (o j) = true) → fetchPackageInfo o = ⟨"Unknown", 3, 2⟩)
    ∧ ((fetchPackageInfo o).result = "Unknown"
        ∨ ∃ k, k < 3 ∧ o k = .success ((fetchPackageInfo o).result)) := by
  have key := fetchLoop3_eq o
  refine ⟨⟨?_, ?_⟩, ?_, ?_, ?_⟩
  · rw [key]; cases h0 : o 0 <;> cases h1 : o 1 <;> cases h2 : o 2 <;> simp [h0, h1, h2]
  · rw [key]; cases h0 : o 0 <;> cases h1 : o 1 <;> cases h2 : o 2 <;> simp [h0, h1, h2]
  · intro k hk htrans h404
    interval_cases k
    · rw [key, h404]
    · have t0 := htrans 0 (by omega)
      rw [key, h404]
      cases h0 : o 0 <;> simp [h0, isTransient] at t0 ⊢
    · have t0 := htrans 0 (by omega)
      have t1 := htrans 1 (by omega)
      rw [key, h404]
      cases h0 : o 0 <;> cases h1 : o 1 <;> simp [h0, h1, isTransient] at t0 t1 ⊢
  · intro htrans
    have t0 := htrans 0 (by omega)
    have t1 := htrans 1 (by omega)
    have t2 := htrans 2 (by omega)
    rw [key]
    cases h0 : o 0 <;> cases h1 : o 1 <;> cases h2 : o 2 <;>
      simp [h0, h1, h2, isTransient] at t0 t1 t2 ⊢
  · rw [key]
    cases h0 : o 0 with
    | success v => exact Or.inr ⟨0, by omega, h0⟩
    | http404 => exact Or.inl rfl
    | httpOther | oversize | netError =>
      cases h1 : o 1 with
      | success v => exact Or.inr ⟨1, by omega, h1⟩
      | http404 => exact Or.inl rfl
      | httpOther | oversize | netError =>
        cases h2 : o 2 with
        | success v => exact Or.inr ⟨2, by omega, h2⟩
        | http404 => exact Or.inl rfl
        | httpOther | oversize | netError => exact Or.inl rfl

/-- C4 witness: every attempt oversize — `Unknown` after 3 attempts and 2
sleeps; a 404 on the first attempt — `Unknown` immediately with no sleep. -/
theorem C4_witness :
    fetchPackageInfo (fun _ => FetchOutcome.oversize) = ⟨"Unknown", 3, 2⟩
    ∧ fetchPackageInfo (fun n => if n = 0 then FetchOutcome.http404 else FetchOutcome.netError)
        = ⟨"Unknown", 1, 0⟩ := by
  constructor
  · exact (C4_fetch_retry (fun _ => FetchOutcome.oversize)).2.2.1 (fun j hj => rfl)
  · exact (C4_fetch_retry _).2.1 0 (by omega) (fun j hj => absurd hj (by omega)) rfl

/-- C6: per-package rate limiting in `_check_single_package_simple`.  After a
non-forced check of a package fetched at time `t` and recorded a non-sentinel
latest version, a second non-forced check within 30 seconds reaches the
`skipped` outcome — no network fetch — and leaves the state untouched.  A
package whose current status is `Unknown` always proceeds to the fetch, as
does any forced check, which bypasses the rate-limit block entirely. -/
theorem C6_rate_limit (cmp : String → String → Bool) (s s1 : CheckState)
    (pkgName pkgVer latest : String) (t now : Nat) :
    ((rateLimitGate s pkgName t false false false = (.fetch, s1)) →
      latest ≠ "Unknown" → latest ≠ "Error" →
      (∃ p, s1.packages.find? (fun q => q.name == pkgName) = some p) →
      now - t < 30 →
      rateLimitGate (applyFetchResult cmp s1 pkgName pkgVer latest) pkgName now false false false
        = (.skipped, applyFetchResult cmp s1 pkgName pkgVer latest))
    ∧ (currentStatus s.packages pkgName = "Unknown" →
        (rateLimitGate s pkgName now false false false).1 = .fetch)
    ∧ rateLimitGate s pkgName now true false false = (.fetch, s) := by
  refine ⟨?_, ?_, ?_⟩
  · intro h1 hlatU hlatE hfind hwin
    have hs1time : s1.lastCheckTime = setTime s.lastCheckTime pkgName t := by
      unfold rateLimitGate at h1
      simp only [Bool.or_self, Bool.false_eq_true, if_false] at h1
      split at h1
      · split at h1
        · exact absurd h1 (by simp)
        · simp only [Prod.mk.injEq] at h1
          rw [← h1.2]
      · simp only [Prod.mk.injEq] at h1
        rw [← h1.2]
    obtain ⟨p, hp⟩ := hfind
    set s2 := applyFetchResult cmp s1 pkgName pkgVer latest with hs2
    have hlook : lookupTime s2.lastCheckTime pkgName = some t := by
      have he : s2.lastCheckTime = s1.lastCheckTime := rfl
      rw [he, hs1time]
      exact lookupTime_setTime _ _ _
    have hbeqU : (latest == "Unknown") = false := by simp [hlatU]
    have hbeqE : (latest == "Error") = false := by simp [hlatE]
    have hstat : currentStatus s2.packages pkgName = fetchStatus cmp pkgVer latest := by
      have hpk : s2.packages
          = updateFirstBy (fun q => q.name == pkgName) (setLatStat latest (fetchStatus cmp pkgVer latest)) s1.packages := rfl
      unfold currentStatus
      rw [hpk, find?_updateFirstBy s1.packages pkgName (setLatStat latest (fetchStatus cmp pkgVer latest)) (fun q => rfl), hp]
      rfl
    have hstatne : (currentStatus s2.packages pkgName != "Unknown") = true := by
      rw [hstat]
      unfold fetchStatus
      rw [hbeqU, hbeqE]
      by_cases hc : cmp pkgVer latest = true <;> simp [hc]
    unfold rateLimitGate
    rw [hlook]
    simp [hstatne, hwin]
  · intro hstat
    unfold rateLimitGate
    rcases hl : lookupTime s.lastCheckTime pkgName with _ | t0 <;> simp [hl, hstat]
  · rfl

/-- C6 witness: `requests` checked at time 100 with latest `2.31.0` is skipped
at time 110; `numpy` with status `Unknown` re-fetches despite a fresh
timestamp; a forced check always fetches. -/
theorem C6_witness :
    rateLimitGate (applyFetchResult is_outdated ⟨[("requests", 100)], [⟨"requests", "2.0.0", "Unknown", "Unknown"⟩]⟩ "requests" "2.0.0" "2.31.0") "requests" 110 false false false
      = (.skipped, applyFetchResult is_outdated ⟨[("requests", 100)], [⟨"requests", "2.0.0", "Unknown", "Unknown"⟩]⟩ "requests" "2.0.0" "2.31.0")
    ∧ (rateLimitGate ⟨[("numpy", 100)], [⟨"numpy", "1.20.0", "Unknown", "Unknown"⟩]⟩ "numpy" 110 false false false).1 = .fetch
    ∧ rateLimitGate ⟨[("numpy", 100)], [⟨"numpy", "1.20.0", "Unknown", "Unknown"⟩]⟩ "numpy" 110 true false false
      = (.fetch, ⟨[("numpy", 100)], [⟨"numpy", "1.20.0", "Unknown", "Unknown"⟩]⟩) := by
  refine ⟨?_, ?_, ?_⟩
  · exact (C6_rate_limit is_outdated
      ⟨[], [⟨"requests", "2.0.0", "Unknown", "Unknown"⟩]⟩
      ⟨[("requests", 100)], [⟨"requests", "2.0.0", "Unknown", "Unknown"⟩]⟩
      "requests" "2.0.0" "2.31.0" 100 110).1 (by decide) (by decide) (by decide)
      ⟨⟨"requests", "2.0.0", "Unknown", "Unknown"⟩, by decide⟩ (by decide)
  · exact (C6_rate_limit is_outdated
      ⟨[("numpy", 100)], [⟨"numpy", "1.20.0", "Unknown", "Unknown"⟩]⟩
      ⟨[("numpy", 100)], [⟨"numpy", "1.20.0", "Unknown", "Unknown"⟩]⟩
      "numpy" "1.20.0" "1.21.0" 100 110).2.1 (by decide)
  · exact (C6_rate_limit is_outdated
      ⟨[("numpy", 100)], [⟨"numpy", "1.20.0", "Unknown", "Unknown"⟩]⟩
      ⟨[("numpy", 100)], [⟨"numpy", "1.20.0", "Unknown", "Unknown"⟩]⟩
      "numpy" "1.20.0" "1.21.0" 100 110).2.2

/-- C7: the claimed circuit breaker does not react to per-package check
failures.  A failed check returns `False` from `_check_single_package_simple`
instead of raising, so `future.result()` returns and the result loop resets
`_consecutive_failures` — the Boolean is never inspected.  At the concrete
failing input, a batch of 12 tasks whose every check fails, all 12 tasks are
dispatched and fetched and none is cancelled; in general, any batch in which
no exception escapes a worker — which the worker's blanket handlers ensure —
fetches every task, however many consecutive check failures it contains. -/
theorem C7_breaker_ignores_check_failures :
    runBatch 10 (List.replicate 12 (WorkerOutcome.returned false)) 0
      = List.replicate 12 (TaskFate.fetched (WorkerOutcome.returned false))
    ∧ (∀ (outcomes : List WorkerOutcome) (consec : Nat),
        (∀ o ∈ outcomes, o ≠ WorkerOutcome.raised) →
        runBatch 10 outcomes consec = outcomes.map TaskFate.fetched) := by
  constructor
  · decide
  · exact runBatch_returned_all_fetched 10

/-- C7 witness: two consecutive failed checks are both fetched and neither
is cancelled. -/
theorem C7_bug_witness :
    runBatch 10 [WorkerOutcome.returned false, WorkerOutcome.returned false] 0
      = [TaskFate.fetched (WorkerOutcome.returned false),
         TaskFate.fetched (WorkerOutcome.returned false)] :=
  C7_breaker_ignores_check_failures.2
    [WorkerOutcome.returned false, WorkerOutcome.returned false] 0 (by decide)

/-- C8, counterexample: the claim asserts the completion callback receives
the failure's error message verbatim (at most truncated).  On the code, a
failing uninstall whose output mentions `permission denied` is reported as the
canned string `Permission denied - try admin privileges`, and any other
failure is prefixed with `Installation failed: ` — neither message is the raw
error text or a truncation (prefix) of it. -/
theorem C8_counterexample :
    (uninstallOnExit [⟨"foo", "1.0", "Unknown", "Unknown"⟩] "foo" 1 ["error: permission denied"]).2
      = (false, "Permission denied - try admin privileges")
    ∧ (("Permission denied - try admin privileges".data).isPrefixOf
        ("error: permission denied".data)) = false
    ∧ (uninstallOnExit [⟨"foo", "1.0", "Unknown", "Unknown"⟩] "foo" 1 ["ERROR: boom"]).2
      = (false, "Installation failed: ERROR: boom")
    ∧ (("Installation failed: ERROR: boom".data).isPrefixOf ("ERROR: boom".data)) = false := by
  refine ⟨by decide, by decide, by decide, by decide⟩

/-- C8, amended: for every package name and package list, when the
package-manager invocation fails (non-zero exit code), the in-memory package
list is left exactly unchanged and the completion callback receives
`success = false` together with the mapped diagnostic of
`run_pip_with_real_progress`: one of three canned messages for recognized
output patterns, otherwise `Installation failed: ` followed by the last 10
captured output lines truncated to 200 characters. -/
theorem C8_uninstall_failure_atomicity (packages : List Pkg) (packageName : String)
    (returnCode : Int) (allOutput : List String) (h : returnCode ≠ 0) :
    (uninstallOnExit packages packageName returnCode allOutput).1 = packages
    ∧ (uninstallOnExit packages packageName returnCode allOutput).2
        = (false, pipFailureMessage allOutput)
    ∧ (pipFailureMessage allOutput = "Permission denied - try admin privileges"
        ∨ pipFailureMessage allOutput = "Network error - check internet connection"
        ∨ pipFailureMessage allOutput = "Package version not found"
        ∨ ∃ em, pipFailureMessage allOutput = "Installation failed: " ++ takeChars 200 em) := by
  refine ⟨?_, ?_, ?_⟩
  · unfold uninstallOnExit runPipResult
    simp [h, uninstallTask]
  · unfold uninstallOnExit runPipResult
    simp [h, uninstallTask]
  · unfold pipFailureMessage
    set em := if allOutput.isEmpty then "Unknown error" else joinLines (lastN 10 allOutput) with hem
    by_cases h1 : (containsSub em "PermissionError" || containsSub (lowerStr em) "permission denied") = true
    · simp [h1]
    · simp only [h1, Bool.false_eq_true, if_false]
      by_cases h2 : (containsSub em "Network is unreachable" || containsSub (lowerStr em) "connection") = true
      · simp [h2]
      · simp only [h2, Bool.false_eq_true, if_false]
        by_cases h3 : containsSub em "Could not find a version" = true
        · simp [h3]
        · simp only [h3, Bool.false_eq_true, if_false]
          exact Or.inr (Or.inr (Or.inr ⟨em, rfl⟩))

/-- C8 witness: uninstalling a package the package manager does not know
(exit code 1) leaves the one-package list unchanged and reports failure with
the mapped message. -/
theorem C8_witness :
    (uninstallOnExit [⟨"requests", "2.0.0", "2.31.0", "Outdated"⟩] "ghost-package" 1
        ["WARNING: Skipping ghost-package as it is not installed."]).1
      = [⟨"requests", "2.0.0", "2.31.0", "Outdated"⟩]
    ∧ (uninstallOnExit [⟨"requests", "2.0.0", "2.31.0", "Outdated"⟩] "ghost-package" 1
        ["WARNING: Skipping ghost-package as it is not installed."]).2
      = (false, pipFailureMessage ["WARNING: Skipping ghost-package as it is not installed."]) :=
  ⟨(C8_uninstall_failure_atomicity [⟨"requests", "2.0.0", "2.31.0", "Outdated"⟩] "ghost-package" 1
      ["WARNING: Skipping ghost-package as it is not installed."] (by decide)).1,
   (C8_uninstall_failure_atomicity [⟨"requests", "2.0.0", "2.31.0", "Outdated"⟩] "ghost-package" 1
      ["WARNING: Skipping ghost-package as it is not installed."] (by decide)).2.1⟩

/-- C5, counterexample: the claim asserts that the processing layer preserves
the registry's result order without resorting.  On the code,
`_process_search_results` ends with `processed.sort(key=lambda x: x["name"].lower())`:
for the registry order `zeta`, `alpha` the returned order is `alpha`, `zeta`. -/
theorem C5_counterexample :
    (processSearchResults [] [⟨"zeta", "1.0", ""⟩, ⟨"alpha", "2.0", ""⟩]).map
        (fun r => r.name) = ["alpha", "zeta"]
    ∧ [⟨"zeta", "1.0", ""⟩, ⟨"alpha", "2.0", ""⟩].map (fun r : RawResult => r.name)
        = ["zeta", "alpha"]
    ∧ (["alpha", "zeta"] : List String) ≠ ["zeta", "alpha"] := by
  refine ⟨by decide, by decide, by decide⟩

/-- C5, amended: for every list of raw registry results, the processing
returns an empty list on empty input, each case-insensitively distinct
(stripped) name at most once with the first raw occurrence of that name
providing the kept entry, every non-empty stripped raw name represented, and
the output sorted ascending by lower-cased name — the layer resorts instead
of preserving registry order. -/
theorem C5_search_processing (localPkgs : List Pkg) (raw : List RawResult) :
    (raw = [] → processSearchResults localPkgs raw = [])
    ∧ ((processSearchResults localPkgs raw).map (fun o => lowerChars o.name)).Nodup
    ∧ (processSearchResults localPkgs raw).Pairwise
        (fun a b => lowerChars a.name ≤ lowerChars b.name)
    ∧ (∀ o ∈ processSearchResults localPkgs raw,
        ∃ r, (raw.filter (sameKeyRaw (lowerChars o.name))).head? = some r
          ∧ o = mkProcessed localPkgs r (stripStr r.name))
    ∧ (∀ r ∈ raw, stripStr r.name ≠ "" →
        ∃ o ∈ processSearchResults localPkgs raw,
          lowerChars o.name = lowerChars (stripStr r.name)) := by
  by_cases hemp : raw.isEmpty
  · have hra : raw = [] := List.isEmpty_iff.mp hemp
    subst hra
    refine ⟨fun _ => rfl, by simp [processSearchResults], by simp [processSearchResults], ?_, ?_⟩
    · intro o ho
      simp [processSearchResults] at ho
    · intro r hr
      simp at hr
  · have hps : processSearchResults localPkgs raw
        = sortBy procLe (dedupResults localPkgs [] raw) := by
      unfold processSearchResults
      rw [if_neg (by simpa using hemp)]
    have hperm := sortBy_perm procLe (dedupResults localPkgs [] raw)
    refine ⟨?_, ?_, ?_, ?_, ?_⟩
    · intro hra
      subst hra
      simp at hemp
    · rw [hps]
      have hpm := hperm.map (fun o => lowerChars o.name)
      exact hpm.nodup_iff.mpr (dedup_keys_nodup localPkgs raw [])
    · rw [hps]
      have hsorted := sortBy_sorted procLe procLe_total procLe_trans
        (dedupResults localPkgs [] raw)
      exact hsorted.imp (fun h => of_decide_eq_true h)
    · intro o ho
      rw [hps] at ho
      have ho2 : o ∈ dedupResults localPkgs [] raw := hperm.subset ho
      exact (dedup_mem_spec localPkgs raw [] o ho2).2
    · intro r hr hname
      obtain ⟨o, ho, hk⟩ := dedup_complete localPkgs raw [] r hr hname (by simp)
      exact ⟨o, by rw [hps]; exact hperm.symm.subset ho, hk⟩

/-- C5 witness: the empty input gives the empty output, and a concrete
two-element registry answer keeps an entry for `zeta`. -/
theorem C5_witness :
    processSearchResults ([] : List Pkg) ([] : List RawResult) = []
    ∧ (∃ o ∈ processSearchResults ([] : List Pkg) [⟨"zeta", "1.0", ""⟩, ⟨"alpha", "2.0", ""⟩],
        lowerChars o.name = lowerChars (stripStr "zeta")) :=
  ⟨(C5_search_processing [] []).1 rfl,
   (C5_search_processing [] [⟨"zeta", "1.0", ""⟩, ⟨"alpha", "2.0", ""⟩]).2.2.2.2
     ⟨"zeta", "1.0", ""⟩ (by decide) (by decide)⟩

/-- C10: starting from the engine's initial empty list, every history of
package-list mutations — load commits (which sort before committing),
on-demand discovery and post-install refresh (which append and re-sort, or
rewrite non-name fields in place), uninstalls (which filter preserving
order), and status updates (in-place field rewrites) — leaves the in-memory
list sorted ascending by lower-cased name, and therefore every public read
(status filter, local substring search, copy-out) observes a name-sorted
list. -/
theorem C10_sorted_invariant (ops : List EngineOp) (mode term : String) :
    SortedByName (applyOps ops [])
    ∧ SortedByName (filterPackages mode (applyOps ops []))
    ∧ SortedByName (searchLocal term (applyOps ops [])) := by
  have hmain : ∀ (ops : List EngineOp) (pkgs : List Pkg), SortedByName pkgs →
      SortedByName (applyOps ops pkgs) := by
    intro ops
    induction ops with
    | nil => intro pkgs h; exact h
    | cons op rest ih =>
      intro pkgs h
      exact ih (applyOp pkgs op) (sorted_applyOp pkgs op h)
  have h0 : SortedByName (applyOps ops []) := hmain ops [] List.Pairwise.nil
  refine ⟨h0, ?_, ?_⟩
  · unfold filterPackages
    split
    · exact h0
    · split
      · exact List.Pairwise.sublist (List.filter_sublist _) h0
      · split
        · exact List.Pairwise.sublist (List.filter_sublist _) h0
        · exact List.Pairwise.nil
  · exact List.Pairwise.sublist (List.filter_sublist _) h0

set_option maxRecDepth 200000 in
/-- C9, counterexample: the claim asserts that two Environment values with
the same interpreter path always produce the same identity id.  On the code,
`_generate_env_id` hashes the env path with priority over the interpreter
path, so the same interpreter with two different env paths yields two
different ids; and when both paths are empty the id hashes the current
timestamp, so it is not even a function of the paths. -/
theorem C9_counterexample :
    generateEnvId "python" (some "a") "t0" ≠ generateEnvId "python" (some "b") "t0"
    ∧ generateEnvId "" none "1000.0" ≠ generateEnvId "" none "2000.0" :=
  ⟨by decide, by decide⟩

/-- C9, amended: the identity id is a deterministic pure function of the pair
(env path, interpreter path) whenever at least one of them is non-empty — a
non-empty env path alone determines the id (independently of interpreter path
and time), and with no env path a non-empty interpreter path alone
determines it; moreover src/app.py's `_get_environment_id` agrees with
src/environments.py's `_generate_env_id` on interpreter-only environments.
Only when both paths are empty does the id depend on the clock. -/
theorem C9_env_identity (p q e t1 t2 : String) :
    (e ≠ "" → generateEnvId p (some e) t1 = generateEnvId q (some e) t2)
    ∧ (p ≠ "" → generateEnvId p none t1 = generateEnvId p none t2)
    ∧ (p ≠ "" → appGetEnvironmentId (some ⟨p, ""⟩) = generateEnvId p none t1) := by
  refine ⟨?_, ?_, ?_⟩
  · intro he
    simp [generateEnvId, he]
  · intro hp
    simp [generateEnvId, hp]
  · intro hp
    simp [generateEnvId, appGetEnvironmentId, hp]

/-- C9 witness: equal env paths give equal ids across different interpreter
paths and times; an interpreter-only environment has a time-independent id on
which both implementations agree. -/
theorem C9_witness :
    generateEnvId "py" (some "envdir") "1" = generateEnvId "qy" (some "envdir") "2"
    ∧ generateEnvId "py" none "1" = generateEnvId "py" none "2"
    ∧ appGetEnvironmentId (some ⟨"py", ""⟩) = generateEnvId "py" none "1" :=
  ⟨(C9_env_identity "py" "qy" "envdir" "1" "2").1 (by decide),
   (C9_env_identity "py" "qy" "envdir" "1" "2").2.1 (by decide),
   (C9_env_identity "py" "qy" "envdir" "1" "2").2.2 (by decide)⟩

end PyScope
